import Mathlib

/-!
Shallow embedding of the pgo-raftkv YCSB client (`db/pgo-raftkv/db.go`).

The client translates benchmark Read/Update/Insert/Delete/Scan operations into
Get/Put request records sent over per-thread channels to a raft-backed KV
cluster, validates the correlated responses, and encodes/decodes field maps.

Field maps (`map[string][]byte` in Go) are modelled as association lists with
string values (byte slices and strings are in bijection).  TLA record values on
the wire are modelled by `WireValue`; responses (`mtype`/`msuccess`/`mresponse`
records) by `Resp`.  The sequential ("no interleaving writer") semantics of the
cluster is a store mapping flat keys to stored wire values; each client
operation returns its result, the resulting store and the trace of requests
sent on the inbound channel.
-/

set_option autoImplicit false

namespace PgoRaftKV

/-- A benchmark field map: field name to value (Go `map[string][]byte`),
modelled as an association list. -/
abbrev FieldMap := List (String × String)

/-- The value component of a wire record: either a plain string (integer-size
mode writes the decimal length) or a record of field entries (structured
mode). -/
inductive WireValue where
  | str : String → WireValue
  | record : FieldMap → WireValue
deriving DecidableEq, Repr

/-- Response message types the client compares against
(`raftkvs.ClientGetResponse` / `raftkvs.ClientPutResponse`). -/
inductive MType where
  | clientGetResponse
  | clientPutResponse
deriving DecidableEq, Repr

/-- The `mresponse` sub-record of a response: key, presence flag (`ok`), and
value payload. -/
structure MResponse where
  key : String
  ok : Bool
  value : WireValue
deriving DecidableEq, Repr

/-- A response record as read from the outbound channel: `msuccess`, `mtype`
and `mresponse` fields. -/
structure Resp where
  msuccess : Bool
  mtype : MType
  mresponse : MResponse
deriving DecidableEq, Repr

/-- Result of one client operation: success value, recoverable error
(`fmt.Errorf` returned to the caller), or fatal panic with its message. -/
inductive OpResult (α : Type) where
  | ok : α → OpResult α
  | err : String → OpResult α
  | fatal : String → OpResult α
deriving DecidableEq, Repr

/-- Message of the panic raised by the `assert` helper on a failed check. -/
def integrityMsg : String := "data integrity failed!"

/-- Message of the TLA runtime panic raised by `AsFunction` on a non-function
value (distinct from the integrity panic). -/
def notAFunctionMsg : String := "TLA value is not a function"

/-- Requests the client can place on the inbound channel of an endpoint: a Get for
a flat key, or a Put of a flat key and an encoded value.  There is no delete
request type. -/
inductive Request where
  | get : String → Request
  | put : String → WireValue → Request
deriving DecidableEq, Repr

/-- Key namespacing: `keyStr := table + "/" + key`. -/
def flatKey (table key : String) : String := table ++ "/" ++ key

/-- Client configuration relevant to the codec: the `ycsb.useints` flag and
the JSON serializer used (only for its output length) in integer-size mode.
`json.Marshal` is Go library code, so it enters the model as a parameter
producing the serialized bytes. -/
structure Cfg where
  useInts : Bool
  jsonMarshal : FieldMap → List Nat

/-- Value encoding (`kvFn` in `Insert`): in integer-size mode, the decimal
string of the byte length of the JSON serialization of the field map;
otherwise a record with one entry per field. -/
def encodeValue (cfg : Cfg) (values : FieldMap) : WireValue :=
  if cfg.useInts then WireValue.str (toString (cfg.jsonMarshal values).length)
  else WireValue.record values

/-- The field filter built in `Read`: `nil` when the requested field list is
empty, otherwise the set of requested names. -/
def fieldFilterOf (fields : List String) : Option (List String) :=
  if fields.isEmpty then none else some fields

/-- Whether a decoded field is kept: kept unconditionally when the filter is
absent, otherwise exactly when the filter contains it
(`fieldFilter == nil || fieldFilter[kStr]`). -/
def keepField : Option (List String) → String → Bool
  | none, _ => true
  | some fieldFilter, k => fieldFilter.contains k

/-- Structured-mode decoding (the iterator loop in `Read`): keep each entry of
the wire record that passes the field filter. -/
def decodeStructured (fieldFilter : Option (List String)) (kvs : FieldMap) : FieldMap :=
  kvs.filter (fun kv => keepField fieldFilter kv.1)

/-- Processing of one response in `Read`, in source order: assert `msuccess`;
assert the type is `ClientGetResponse`; assert the response key equals the
flat key of the request; return "key not found" when the presence flag is false;
in integer-size mode return an empty map without parsing; otherwise decode the
record value under the field filter. -/
def readProcess (useInts : Bool) (keyStr : String) (fieldFilter : Option (List String))
    (resp : Resp) : OpResult FieldMap :=
  if resp.msuccess = false then OpResult.fatal integrityMsg
  else if resp.mtype ≠ MType.clientGetResponse then OpResult.fatal integrityMsg
  else if resp.mresponse.key ≠ keyStr then OpResult.fatal integrityMsg
  else if resp.mresponse.ok = false then OpResult.err ("key not found: " ++ keyStr)
  else if useInts then OpResult.ok []
  else
    match resp.mresponse.value with
    | WireValue.record kvs => OpResult.ok (decodeStructured fieldFilter kvs)
    | WireValue.str _ => OpResult.fatal notAFunctionMsg

/-- Processing of one response in `Insert`, in source order: assert
`msuccess`; assert the type is `ClientPutResponse`; assert the response key
equals the flat key of the request; assert the echoed value equals the encoded
value sent; then succeed silently. -/
def insertProcess (keyStr : String) (encoded : WireValue) (resp : Resp) : OpResult Unit :=
  if resp.msuccess = false then OpResult.fatal integrityMsg
  else if resp.mtype ≠ MType.clientPutResponse then OpResult.fatal integrityMsg
  else if resp.mresponse.key ≠ keyStr then OpResult.fatal integrityMsg
  else if resp.mresponse.value ≠ encoded then OpResult.fatal integrityMsg
  else OpResult.ok ()

/-- Lookup of a field in a field map (first matching entry, as in a Go map
where keys are unique). -/
def fmLookup : FieldMap → String → Option String
  | [], _ => none
  | kv :: rest, f => if kv.1 = f then some kv.2 else fmLookup rest f

/-- Go map assignment `result[k] = v` on the association-list model: replace
the entry for `k` when present, otherwise append a new entry. -/
def fmSet : FieldMap → String → String → FieldMap
  | [], k, v => [(k, v)]
  | kv :: rest, k, v => if kv.1 = k then (k, v) :: rest else kv :: fmSet rest k v

/-- The merge loop of `Update`: `for k := range values { result[k] = values[k] }`
over the map returned by the internal Read. -/
def goMerge (result values : FieldMap) : FieldMap :=
  values.foldl (fun r kv => fmSet r kv.1 kv.2) result

/-- Restriction of a field map to a set of field names, following the wording of the spec for the round-trip property: "keep only fields present in the filter; if
the filter is empty/absent, keep all fields". -/
def restrictSpec (m : FieldMap) (F : List String) : FieldMap :=
  if F.isEmpty then m else m.filter (fun kv => F.contains kv.1)

/-- The sequential cluster state: stored wire value per flat key. -/
def Store := String → Option WireValue

/-- The response of the cluster to a Get, under the sequential no-interleaving
model: a successful `ClientGetResponse` for the key, with presence flag and
stored value. -/
def clusterGet (s : Store) (k : String) : Resp :=
  match s k with
  | some v => ⟨true, MType.clientGetResponse, ⟨k, true, v⟩⟩
  | none => ⟨true, MType.clientGetResponse, ⟨k, false, WireValue.record []⟩⟩

/-- The handling of a Put by the cluster under the sequential model: store the
value and echo it in a successful `ClientPutResponse`. -/
def clusterPut (s : Store) (k : String) (v : WireValue) : Resp × Store :=
  (⟨true, MType.clientPutResponse, ⟨k, true, v⟩⟩, fun q => if q = k then some v else s q)

/-- Operation `Read(table, key, fields)` under the sequential model: send a Get request
for the flat key and process the response of the cluster.  Returns the result and
the trace of requests sent. -/
def readOp (cfg : Cfg) (s : Store) (table key : String) (fields : List String) :
    OpResult FieldMap × List Request :=
  let keyStr := flatKey table key
  (readProcess cfg.useInts keyStr (fieldFilterOf fields) (clusterGet s keyStr),
   [Request.get keyStr])

/-- Operation `Insert(table, key, values)` under the sequential model: encode the
values, send a Put request, process the response.  Returns the result, the
updated store and the trace of requests sent. -/
def insertOp (cfg : Cfg) (s : Store) (table key : String) (values : FieldMap) :
    OpResult Unit × Store × List Request :=
  let keyStr := flatKey table key
  let encoded := encodeValue cfg values
  let (resp, s2) := clusterPut s keyStr encoded
  (insertProcess keyStr encoded resp, s2, [Request.put keyStr encoded])

/-- Operation `Update(table, key, values)`: Read the full current value (no field
filter), return its error if it fails, otherwise merge the supplied values
over the result and Insert the merged map. -/
def updateOp (cfg : Cfg) (s : Store) (table key : String) (values : FieldMap) :
    OpResult Unit × Store × List Request :=
  match readOp cfg s table key [] with
  | (OpResult.ok result, reqs) =>
      let (res, s2, reqs2) := insertOp cfg s table key (goMerge result values)
      (res, s2, reqs ++ reqs2)
  | (OpResult.err e, reqs) => (OpResult.err e, s, reqs)
  | (OpResult.fatal p, reqs) => (OpResult.fatal p, s, reqs)

/-- Operation `Delete(table, key)`: an Insert of the empty value map. -/
def deleteOp (cfg : Cfg) (s : Store) (table key : String) :
    OpResult Unit × Store × List Request :=
  insertOp cfg s table key []

/-- Operation `Scan`: ignores all arguments, returns a nil result with a "not
implemented" error and sends no request. -/
def scanOp (_table _startKey : String) (_count : Nat) (_fields : List String) :
    OpResult (List FieldMap) × List Request :=
  (OpResult.err "pgo-raftkv does not implement key scan", [])

/-- Control flow of `InitThread`: panic when `threadCount` differs from the
length of `clientReplyPoints`; then read `clientReplyPoints[threadIdx]` as the
reply address of the thread (a Go index-out-of-range panic when out of bounds);
then append the new thread and panic when more than `threadCount` threads have
been registered.  `priorThreads` is the number of threads registered by
earlier calls; on success the reply address is returned. -/
def initThread (clientReplyPoints : List String) (priorThreads : Nat)
    (threadIdx threadCount : Nat) : OpResult String :=
  if threadCount ≠ clientReplyPoints.length then
    OpResult.fatal "clientreplypoints must contain threadCount elements"
  else
    match clientReplyPoints.get? threadIdx with
    | none => OpResult.fatal "index out of range"
    | some self =>
        if priorThreads + 1 > threadCount then OpResult.fatal "too many client threads!"
        else OpResult.ok self

/-- Whether an operation result is a fatal panic. -/
def OpResult.isFatal {α : Type} : OpResult α → Bool
  | OpResult.fatal _ => true
  | _ => false

/-- The single-slot timeout-signal channel, as a bounded queue of capacity 1.
Non-blocking drain (`select { case <-ch: default: }`): drop the pending entry
when there is one. -/
def drainSlot (slot : List Bool) : List Bool := slot.tail

/-- Blocking send on the timeout-signal channel (`client.timeoutCh <- TLA_TRUE`). -/
def sendSlot (slot : List Bool) : List Bool := slot ++ [true]

/-- The timeout branch of the await loops: drain the slot non-blockingly,
then push one fresh signal. -/
def timeoutTick (slot : List Bool) : List Bool := sendSlot (drainSlot slot)

/-- An event the await loop can wake on: the fixed request timeout elapsing,
or a response arriving on the outbound channel. -/
inductive AwaitEvent where
  | timeout
  | response : Resp → AwaitEvent
deriving DecidableEq, Repr

/-- Outcome of one iteration of an await loop: keep awaiting with an updated
timeout slot (recording any requests sent during the iteration), or finish
with a result. -/
inductive LoopStep (α : Type) where
  | awaitMore : List Bool → List Request → LoopStep α
  | done : OpResult α → LoopStep α
deriving DecidableEq, Repr

/-- One iteration of the awaiting loop of `Read` while a Get is
outstanding. -/
def readLoopStep (useInts : Bool) (keyStr : String) (fieldFilter : Option (List String))
    (slot : List Bool) : AwaitEvent → LoopStep FieldMap
  | AwaitEvent.response r => LoopStep.done (readProcess useInts keyStr fieldFilter r)
  | AwaitEvent.timeout => LoopStep.awaitMore (timeoutTick slot) []

/-- One iteration of the awaiting loop of `Insert` while a Put is
outstanding. -/
def insertLoopStep (keyStr : String) (encoded : WireValue)
    (slot : List Bool) : AwaitEvent → LoopStep Unit
  | AwaitEvent.response r => LoopStep.done (insertProcess keyStr encoded r)
  | AwaitEvent.timeout => LoopStep.awaitMore (timeoutTick slot) []

/-! ### Helper lemmas -/

/-- An absent field filter keeps every field: decoding is the identity. -/
@[simp]
theorem decodeStructured_none (kvs : FieldMap) : decodeStructured none kvs = kvs := by
  induction kvs with
  | nil => rfl
  | cons kv rest ih =>
      simp only [decodeStructured, keepField, List.filter_cons_of_pos] at ih ⊢
      exact congrArg (kv :: ·) ih

/-- Setting a field then looking one up: the set field reads back the new
value, others are unchanged. -/
theorem fmLookup_fmSet (m : FieldMap) (k v f : String) :
    fmLookup (fmSet m k v) f = if f = k then some v else fmLookup m f := by
  induction m with
  | nil =>
      by_cases hfk : f = k
      · subst hfk
        simp [fmSet, fmLookup]
      · have hkf : ¬ k = f := fun h => hfk h.symm
        simp [fmSet, fmLookup, hfk, hkf]
  | cons kv rest ih =>
      by_cases hk : kv.1 = k
      · by_cases hfk : f = k
        · subst hfk
          simp [fmSet, fmLookup, hk]
        · have hkf : ¬ k = f := fun h => hfk h.symm
          simp [fmSet, fmLookup, hk, hfk, hkf]
      · by_cases hfk : f = k
        · subst hfk
          simp [fmSet, fmLookup, hk, ih]
        · by_cases hkvf : kv.1 = f <;> simp [fmSet, fmLookup, hk, hfk, hkvf, ih]

/-- A field absent from the keys of a map looks up to `none`. -/
theorem fmLookup_eq_none (m : FieldMap) (f : String) (h : f ∉ m.map Prod.fst) :
    fmLookup m f = none := by
  induction m with
  | nil => rfl
  | cons kv rest ih =>
      simp only [List.map_cons, List.mem_cons] at h
      push_neg at h
      have h1 : ¬ kv.1 = f := fun hk => h.1 hk.symm
      simp [fmLookup, h1, ih h.2]

/-- Lookup after the `Update` merge loop: a field supplied in `values` reads
back its supplied value, any other field keeps its prior value. -/
theorem fmLookup_goMerge (m values : FieldMap) (f : String)
    (hnd : (values.map Prod.fst).Nodup) :
    fmLookup (goMerge m values) f =
      match fmLookup values f with
      | some v => some v
      | none => fmLookup m f := by
  induction values generalizing m with
  | nil => rfl
  | cons kv rest ih =>
      simp only [List.map_cons, List.nodup_cons] at hnd
      have hstep : goMerge m (kv :: rest) = goMerge (fmSet m kv.1 kv.2) rest := rfl
      rw [hstep, ih _ hnd.2]
      by_cases hfk : f = kv.1
      · rw [hfk, fmLookup_eq_none rest kv.1 hnd.1]
        simp [fmLookup, fmLookup_fmSet]
      · have hkf : ¬ kv.1 = f := fun h => hfk h.symm
        have h2 : fmLookup (kv :: rest) f = fmLookup rest f := by
          simp [fmLookup, hkf]
        rw [h2, fmLookup_fmSet]
        cases fmLookup rest f <;> simp [hfk]

/-- Repeated timeout ticks leave the refilled slot unchanged. -/
theorem timeoutTick_iterate_fixed (n : Nat) :
    Nat.iterate timeoutTick n [true] = [true] := by
  induction n with
  | zero => rfl
  | succ k ih => rw [Function.iterate_succ_apply, show timeoutTick [true] = [true] from rfl, ih]

/-! ### Claim theorems -/

/-- C7: Scan returns a nil result with a non-nil "not implemented" error for
all arguments, and sends no request on any inbound channel. -/
theorem scan_not_implemented (table startKey : String) (count : Nat) (fields : List String) :
    scanOp table startKey count fields =
      (OpResult.err "pgo-raftkv does not implement key scan", []) ∧
    (scanOp table startKey count fields).2 = [] := ⟨rfl, rfl⟩

/-- C5: Delete(table, key) is exactly Insert(table, key, emptyMap): the same
result, store effect and request trace, the trace being one Put of the encoded
empty map for the flat key; every request it sends is a Put (there is no
delete message type). -/
theorem delete_is_insert_empty (cfg : Cfg) (s : Store) (table key : String) :
    deleteOp cfg s table key = insertOp cfg s table key [] ∧
    (deleteOp cfg s table key).2.2 =
      [Request.put (flatKey table key) (encodeValue cfg [])] ∧
    ∀ r ∈ (deleteOp cfg s table key).2.2, ∃ k v, r = Request.put k v := by
  refine ⟨rfl, rfl, ?_⟩
  intro r hr
  simp only [deleteOp, insertOp, clusterPut, List.mem_singleton] at hr
  exact ⟨flatKey table key, encodeValue cfg [], hr⟩

/-- C4: when a Get response passes the success/kind/key validation, a false
presence flag makes Read return the recoverable "key not found" error, and a
true presence flag never produces a recoverable error. -/
theorem read_not_found_recoverable (useInts : Bool) (keyStr : String)
    (fieldFilter : Option (List String)) (resp : Resp)
    (hs : resp.msuccess = true) (ht : resp.mtype = MType.clientGetResponse)
    (hk : resp.mresponse.key = keyStr) :
    (resp.mresponse.ok = false →
      readProcess useInts keyStr fieldFilter resp =
        OpResult.err ("key not found: " ++ keyStr)) ∧
    (resp.mresponse.ok = true →
      ∀ msg, readProcess useInts keyStr fieldFilter resp ≠ OpResult.err msg) := by
  constructor
  · intro hok
    simp [readProcess, hs, ht, hk, hok]
  · intro hok msg
    simp only [readProcess, hs, ht, hk, hok]
    simp only [ne_eq, not_true_eq_false, if_neg, Bool.true_eq_false, if_false,
      not_false_eq_true, if_true, if_pos]
    cases useInts with
    | true => simp
    | false =>
        simp only [Bool.false_eq_true, if_false]
        cases resp.mresponse.value <;> simp

/-- C9: in integer-size mode, Insert encodes the value as the decimal string
of the byte length of the JSON serialization of the field map, and Read on a
successful found response returns the empty field map regardless of the
response value (no parsing). -/
theorem ints_mode_encode_decode (cfg : Cfg) (h : cfg.useInts = true) :
    (∀ values, encodeValue cfg values =
      WireValue.str (toString (cfg.jsonMarshal values).length)) ∧
    (∀ keyStr fieldFilter v,
      readProcess cfg.useInts keyStr fieldFilter
        ⟨true, MType.clientGetResponse, ⟨keyStr, true, v⟩⟩ = OpResult.ok []) := by
  constructor
  · intro values
    simp [encodeValue, h]
  · intro keyStr fieldFilter v
    simp [readProcess, h]

/-- C9 witness at a concrete configuration, field map and response value. -/
theorem ints_mode_encode_decode_witness :
    encodeValue ⟨true, fun _ => [104, 105]⟩ [("f", "x")] = WireValue.str "2" ∧
    readProcess true "t/k" none
      ⟨true, MType.clientGetResponse, ⟨"t/k", true, WireValue.str "2"⟩⟩ =
      OpResult.ok [] := by
  have h := ints_mode_encode_decode ⟨true, fun _ => [104, 105]⟩ rfl
  exact ⟨h.1 [("f", "x")], h.2 "t/k" none (WireValue.str "2")⟩

/-- C4 witness: a valid absent-key response at concrete inputs. -/
theorem read_not_found_recoverable_witness :
    readProcess false "t/k" none
      ⟨true, MType.clientGetResponse, ⟨"t/k", false, WireValue.record []⟩⟩ =
      OpResult.err ("key not found: " ++ "t/k") ∧
    readProcess false "t/k" none
      ⟨true, MType.clientGetResponse, ⟨"t/k", true, WireValue.record []⟩⟩ ≠
      OpResult.err "key not found: t/k" := by
  constructor
  · exact (read_not_found_recoverable false "t/k" none
      ⟨true, MType.clientGetResponse, ⟨"t/k", false, WireValue.record []⟩⟩ rfl rfl rfl).1 rfl
  · exact (read_not_found_recoverable false "t/k" none
      ⟨true, MType.clientGetResponse, ⟨"t/k", true, WireValue.record []⟩⟩ rfl rfl rfl).2 rfl
      "key not found: t/k"

/-- The response validation of Read panics with the integrity message exactly when
the success flag, response kind or response key check fails. -/
theorem readProcess_fatal_iff (useInts : Bool) (keyStr : String)
    (fieldFilter : Option (List String)) (resp : Resp) :
    readProcess useInts keyStr fieldFilter resp = OpResult.fatal integrityMsg ↔
      ¬(resp.msuccess = true ∧ resp.mtype = MType.clientGetResponse ∧
        resp.mresponse.key = keyStr) := by
  unfold readProcess
  split_ifs with h1 h2 h3 h4 h5
  · simp [h1]
  · simp [h2]
  · simp [h3]
  · simp_all
  · simp_all
  · cases hv : resp.mresponse.value with
    | record kvs => simp_all
    | str s =>
        have hmsg :
            (OpResult.fatal notAFunctionMsg : OpResult FieldMap) ≠
              OpResult.fatal integrityMsg := by
          intro hcontra
          have heq : notAFunctionMsg = integrityMsg := by injection hcontra
          simp [notAFunctionMsg, integrityMsg] at heq
        simp_all

/-- The response validation of Insert panics with the integrity message exactly
when the success flag, response kind, response key or echoed-value check
fails. -/
theorem insertProcess_fatal_iff (keyStr : String) (encoded : WireValue) (resp : Resp) :
    insertProcess keyStr encoded resp = OpResult.fatal integrityMsg ↔
      ¬(resp.msuccess = true ∧ resp.mtype = MType.clientPutResponse ∧
        resp.mresponse.key = keyStr ∧ resp.mresponse.value = encoded) := by
  unfold insertProcess
  split_ifs with h1 h2 h3 h4
  · simp [h1]
  · simp [h2]
  · simp [h3]
  · simp [h4]
  · simp_all

/-- C3: a response received by Read or Insert leads to the fatal integrity
panic exactly when some validation fails: success flag false, response kind
differing from the kind of the originating request (ClientGetResponse for Get,
ClientPutResponse for Put), response key differing from the flat key, or —
for Put — an echoed value differing from the encoded value sent.  When all
validations hold, the integrity-panic branch is unreachable. -/
theorem response_validation_iff (useInts : Bool) (keyStr : String)
    (fieldFilter : Option (List String)) (encoded : WireValue) (resp : Resp) :
    (readProcess useInts keyStr fieldFilter resp = OpResult.fatal integrityMsg ↔
      ¬(resp.msuccess = true ∧ resp.mtype = MType.clientGetResponse ∧
        resp.mresponse.key = keyStr)) ∧
    (insertProcess keyStr encoded resp = OpResult.fatal integrityMsg ↔
      ¬(resp.msuccess = true ∧ resp.mtype = MType.clientPutResponse ∧
        resp.mresponse.key = keyStr ∧ resp.mresponse.value = encoded)) :=
  ⟨readProcess_fatal_iff useInts keyStr fieldFilter resp,
   insertProcess_fatal_iff keyStr encoded resp⟩

/-- C2: in structured mode, decoding the encoded wire record of a field map
through the response path of Read, under field filter `F`, yields exactly the
restriction of the map to the fields of `F`; an empty `F` keeps all fields. -/
theorem structured_roundtrip (cfg : Cfg) (h : cfg.useInts = false)
    (keyStr : String) (m : FieldMap) (F : List String) :
    readProcess cfg.useInts keyStr (fieldFilterOf F)
      ⟨true, MType.clientGetResponse, ⟨keyStr, true, encodeValue cfg m⟩⟩ =
      OpResult.ok (restrictSpec m F) := by
  simp only [readProcess, encodeValue, h, Bool.false_eq_true, if_false]
  by_cases hF : F.isEmpty
  · simp [fieldFilterOf, hF, restrictSpec, decodeStructured_none]
  · simp [fieldFilterOf, hF, restrictSpec, decodeStructured, keepField]

/-- C2 witness: round-trip at a concrete field map and filter. -/
theorem structured_roundtrip_witness :
    readProcess false "t/k" (fieldFilterOf ["a"])
      ⟨true, MType.clientGetResponse,
        ⟨"t/k", true, encodeValue ⟨false, fun _ => []⟩ [("a", "1"), ("b", "2")]⟩⟩ =
      OpResult.ok (restrictSpec [("a", "1"), ("b", "2")] ["a"]) :=
  structured_roundtrip ⟨false, fun _ => []⟩ rfl "t/k" [("a", "1"), ("b", "2")] ["a"]

/-- C6: on each elapse of the request timeout while a slot holds at most one
pending signal, the drain empties the slot (so the following send cannot
block), the refilled slot holds exactly one signal, both await loops keep
awaiting without sending any request or returning any result, and arbitrarily
many repeated timeouts never leave more than one pending signal. -/
theorem timeout_signal_containment (slot : List Bool) (h : slot.length ≤ 1)
    (useInts : Bool) (keyStr : String) (fieldFilter : Option (List String))
    (encoded : WireValue) :
    drainSlot slot = [] ∧
    timeoutTick slot = [true] ∧
    (timeoutTick slot).length = 1 ∧
    readLoopStep useInts keyStr fieldFilter slot AwaitEvent.timeout =
      LoopStep.awaitMore [true] [] ∧
    insertLoopStep keyStr encoded slot AwaitEvent.timeout =
      LoopStep.awaitMore [true] [] ∧
    (∀ n, Nat.iterate timeoutTick (n + 1) slot = [true]) := by
  have hdrain : drainSlot slot = [] := by
    match slot, h with
    | [], _ => rfl
    | [b], _ => rfl
  have htick : timeoutTick slot = [true] := by
    rw [timeoutTick, hdrain]
    rfl
  refine ⟨hdrain, htick, by simp [htick], ?_, ?_, ?_⟩
  · simp [readLoopStep, htick]
  · simp [insertLoopStep, htick]
  · intro n
    rw [Function.iterate_succ_apply, htick, timeoutTick_iterate_fixed]

/-- C6 witness: one pending stale signal, concrete loop parameters, three
repeated timeouts. -/
theorem timeout_signal_containment_witness :
    drainSlot [true] = [] ∧
    timeoutTick [true] = [true] ∧
    readLoopStep false "t/k" none [true] AwaitEvent.timeout =
      LoopStep.awaitMore [true] [] ∧
    Nat.iterate timeoutTick 3 [true] = [true] := by
  have h := timeout_signal_containment [true] (by decide) false "t/k" none
    (WireValue.record [])
  exact ⟨h.1, h.2.1, h.2.2.2.1, h.2.2.2.2.2 2⟩

/-- C8 counterexample: with a one-element reply pool, `threadCount = 1`
equals the pool length, yet `InitThread` at `threadIdx = 1` panics (Go
index-out-of-range on `clientReplyPoints[threadIdx]`), so "panics iff
threadCount differs from the pool length" fails. -/
theorem initThread_mismatch_only_counterexample :
    1 = List.length ["addr0"] ∧
    initThread ["addr0"] 0 1 1 = OpResult.fatal "index out of range" := by
  decide

/-- C8 as amended: `InitThread` panics exactly when `threadCount` differs
from the reply-pool length, or `threadIdx` is out of the range of the pool, or
`threadCount` threads are already registered; when `threadCount` equals the
pool length, `threadIdx` is in range and registration capacity remains, it
returns the reply address `clientReplyPoints[threadIdx]`. -/
theorem initThread_fatal_characterization (clientReplyPoints : List String)
    (priorThreads threadIdx threadCount : Nat) :
    ((initThread clientReplyPoints priorThreads threadIdx threadCount).isFatal = true ↔
      (threadCount ≠ clientReplyPoints.length ∨
        clientReplyPoints.length ≤ threadIdx ∨ threadCount ≤ priorThreads)) ∧
    (∀ self, threadCount = clientReplyPoints.length → threadIdx < threadCount →
      priorThreads < threadCount →
      clientReplyPoints.get? threadIdx = some self →
      initThread clientReplyPoints priorThreads threadIdx threadCount =
        OpResult.ok self) := by
  constructor
  · cases hg : clientReplyPoints.get? threadIdx with
    | none =>
        have hlen : clientReplyPoints.length ≤ threadIdx := List.get?_eq_none.mp hg
        simp only [initThread, hg]
        split_ifs with h1 <;> simp [OpResult.isFatal] <;> omega
    | some self =>
        have hlt : threadIdx < clientReplyPoints.length := by
          by_contra hge
          rw [List.get?_eq_none.mpr (Nat.le_of_not_lt hge)] at hg
          exact Option.noConfusion hg
        simp only [initThread, hg]
        split_ifs with h1 h2 <;> simp [OpResult.isFatal] <;> omega
  · intro self h1 h2 h3 hg
    have hne : ¬ threadCount ≠ clientReplyPoints.length := by omega
    have hcap : ¬ priorThreads + 1 > threadCount := by omega
    have hg2 : clientReplyPoints[threadIdx]? = some self := by
      rw [← List.get?_eq_getElem?]
      exact hg
    simp [initThread, hg2, hne, hcap]

/-- C8 witness: a two-element pool; registering thread 1 of 2 succeeds with
its pooled reply address, and the fatal characterization holds at thread 0. -/
theorem initThread_fatal_characterization_witness :
    ((initThread ["a", "b"] 0 0 2).isFatal = true ↔
      (2 ≠ List.length ["a", "b"] ∨ List.length ["a", "b"] ≤ 0 ∨ 2 ≤ 0)) ∧
    initThread ["a", "b"] 0 1 2 = OpResult.ok "b" := by
  refine ⟨(initThread_fatal_characterization ["a", "b"] 0 0 2).1, ?_⟩
  exact (initThread_fatal_characterization ["a", "b"] 0 1 2).2 "b" rfl
    (by decide) (by decide) rfl

/-- C10: Update on a key the cluster reports absent returns the "key not
found" error of its internal Read, leaves the store unchanged and sends only
the Get request (no Put). -/
theorem update_absent_no_put (cfg : Cfg) (s : Store) (table key : String)
    (values : FieldMap) (h : s (flatKey table key) = none) :
    updateOp cfg s table key values =
      (OpResult.err ("key not found: " ++ flatKey table key), s,
        [Request.get (flatKey table key)]) := by
  have hread : readOp cfg s table key [] =
      (OpResult.err ("key not found: " ++ flatKey table key),
        [Request.get (flatKey table key)]) := by
    simp [readOp, clusterGet, h, readProcess, fieldFilterOf]
  unfold updateOp
  rw [hread]

/-- C10 witness: an empty store at concrete inputs. -/
theorem update_absent_no_put_witness :
    updateOp ⟨false, fun _ => []⟩ (fun _ => none) "t" "k" [("f", "v")] =
      (OpResult.err ("key not found: " ++ flatKey "t" "k"), fun _ => none,
        [Request.get (flatKey "t" "k")]) :=
  update_absent_no_put ⟨false, fun _ => []⟩ (fun _ => none) "t" "k" [("f", "v")] rfl

/-- C1 counterexample: in integer-size mode (`useInts` true) the subsequent
Read returns the empty field map, not the merged map, even though the Update
itself succeeds. -/
theorem update_read_merge_counterexample :
    (updateOp ⟨true, fun _ => [48]⟩
        (fun k => if k = flatKey "t" "k" then some (WireValue.str "1") else none)
        "t" "k" [("f", "v")]).1 = OpResult.ok () ∧
    (readOp ⟨true, fun _ => [48]⟩
        ((updateOp ⟨true, fun _ => [48]⟩
            (fun k => if k = flatKey "t" "k" then some (WireValue.str "1") else none)
            "t" "k" [("f", "v")]).2.1)
        "t" "k" []).1 = OpResult.ok [] ∧
    OpResult.ok ([] : FieldMap) ≠ OpResult.ok [("f", "v")] := by
  decide

/-- C1 as amended: in structured mode, Update on a present key performs the
Get for the flat key, then the Put of the supplied values merged over the
fields the Get returned, and a subsequent Read (no interleaving writer)
returns exactly the merged map, in which supplied fields read back their
supplied values and all other prior fields keep theirs. -/
theorem update_read_merge (cfg : Cfg) (s : Store) (table key : String)
    (values prior : FieldMap)
    (hmode : cfg.useInts = false)
    (hprior : s (flatKey table key) = some (WireValue.record prior))
    (hnd : (values.map Prod.fst).Nodup) :
    (updateOp cfg s table key values).1 = OpResult.ok () ∧
    (updateOp cfg s table key values).2.2 =
      [Request.get (flatKey table key),
       Request.put (flatKey table key) (WireValue.record (goMerge prior values))] ∧
    (readOp cfg (updateOp cfg s table key values).2.1 table key []).1 =
      OpResult.ok (goMerge prior values) ∧
    ∀ f, fmLookup (goMerge prior values) f =
      match fmLookup values f with
      | some v => some v
      | none => fmLookup prior f := by
  have hread : readOp cfg s table key [] =
      (OpResult.ok prior, [Request.get (flatKey table key)]) := by
    simp [readOp, clusterGet, hprior, readProcess, hmode, fieldFilterOf]
  refine ⟨?_, ?_, ?_, fun f => fmLookup_goMerge prior values f hnd⟩
  · unfold updateOp
    rw [hread]
    simp [insertOp, clusterPut, encodeValue, hmode, insertProcess]
  · unfold updateOp
    rw [hread]
    simp [insertOp, clusterPut, encodeValue, hmode]
  · unfold updateOp
    rw [hread]
    simp [insertOp, clusterPut, encodeValue, hmode, readOp, clusterGet,
      readProcess, fieldFilterOf]

/-- C1 witness: a concrete present key with prior fields `a`, `b` updated by
`b`, `c`; the supplied `b` overwrites and the prior `a` is kept. -/
theorem update_read_merge_witness :
    (updateOp ⟨false, fun _ => []⟩
        (fun k => if k = flatKey "t" "k"
          then some (WireValue.record [("a", "1"), ("b", "2")]) else none)
        "t" "k" [("b", "9"), ("c", "3")]).1 = OpResult.ok () ∧
    (readOp ⟨false, fun _ => []⟩
        ((updateOp ⟨false, fun _ => []⟩
            (fun k => if k = flatKey "t" "k"
              then some (WireValue.record [("a", "1"), ("b", "2")]) else none)
            "t" "k" [("b", "9"), ("c", "3")]).2.1)
        "t" "k" []).1 =
      OpResult.ok (goMerge [("a", "1"), ("b", "2")] [("b", "9"), ("c", "3")]) ∧
    fmLookup (goMerge [("a", "1"), ("b", "2")] [("b", "9"), ("c", "3")]) "b" = some "9" ∧
    fmLookup (goMerge [("a", "1"), ("b", "2")] [("b", "9"), ("c", "3")]) "a" = some "1" := by
  have h := update_read_merge ⟨false, fun _ => []⟩
    (fun k => if k = flatKey "t" "k"
      then some (WireValue.record [("a", "1"), ("b", "2")]) else none)
    "t" "k" [("b", "9"), ("c", "3")] [("a", "1"), ("b", "2")] rfl (by decide) (by decide)
  exact ⟨h.1, h.2.2.1, h.2.2.2 "b", h.2.2.2 "a"⟩

end PgoRaftKV
